import Mathlib

/-!
Shallow embedding of the GhostBooks IRC search-and-retrieval engine
(src/app/services/dcc.py, src/app/services/irc.py,
src/app/services/search_parser.py) together with proofs of the spec claims.

Conventions:
* Python machine integers are modelled as Nat (sizes, ports, counters) and
  wall-clock times as Rat (time.time() returns fractional seconds).
* Socket traffic is modelled by explicit traces: a DCC transfer is driven by
  the list of byte counts delivered by successive recv calls (a 0 entry is a
  peer close, matching recv returning empty data).
* Fallible Python functions returning None become Option-valued functions.
-/

set_option maxRecDepth 10000

namespace GhostBooks

/-! ## DCC transfer client (src/app/services/dcc.py) -/

/-- Embedding of the DCCDownload dataclass (dcc.py lines 14-22). -/
structure DCCDownload where
  filename : String
  ip : String
  port : String
  size : Nat
  raw_line : String
deriving Repr, DecidableEq

/-- Embedding of the result dictionary returned by DCCHandler.download_file.
On the success path the code reports size = received; on the failure path it
reports received and expected; recv_calls counts the sock.recv invocations
performed by the loop (used to state that a size-0 transfer reads nothing). -/
structure DownloadResult where
  success : Bool
  received : Nat
  expected : Nat
  recv_calls : Nat
deriving Repr, DecidableEq

/-- Embedding of the receive loop of DCCHandler.download_file (dcc.py lines
107-119): while received < size, recv a chunk; an empty chunk (peer closed)
breaks the loop.  The trace lists the byte counts delivered by successive
recv calls.  Returns (received, number of recv calls made). -/
def download_loop (size : Nat) : Nat → Nat → List Nat → Nat × Nat
  | received, calls, [] => (received, calls)
  | received, calls, d :: rest =>
    if received < size then
      if d = 0 then (received, calls + 1)
      else download_loop size (received + d) (calls + 1) rest
    else (received, calls)

/-- Embedding of DCCHandler.download_file (dcc.py lines 84-146), abstracting
the socket as a delivery trace: after the loop, the transfer succeeds exactly
when received equals the declared size (dcc.py lines 129-146). -/
def download_file (dcc : DCCDownload) (trace : List Nat) : DownloadResult :=
  match download_loop dcc.size 0 0 trace with
  | (received, calls) =>
    if received ≠ dcc.size then ⟨false, received, dcc.size, calls⟩
    else ⟨true, received, dcc.size, calls⟩

/-- Embedding of DCCHandler._int_to_ip (dcc.py lines 64-81):
struct.pack("!I", n) packs n as an unsigned 32-bit big-endian value and
raises struct.error when n does not fit, in which case the handler returns
the sentinel "0.0.0.0"; socket.inet_ntoa renders the four bytes as
dot-separated decimal octets. -/
def int_to_ip (ip_int : Nat) : String :=
  if ip_int < 4294967296 then
    toString (ip_int / 16777216 % 256) ++ "." ++ toString (ip_int / 65536 % 256)
      ++ "." ++ toString (ip_int / 256 % 256) ++ "." ++ toString (ip_int % 256)
  else "0.0.0.0"

/-! ## Rate limiting (src/app/services/irc.py, IRCSession._enforce_rate_limit) -/

/-- Embedding of IRCSession.rate_limit_delay (irc.py line 52): 10 seconds. -/
def rate_limit_delay : Rat := 10

/-- Outcome of one _enforce_rate_limit call under an ideal clock: how long
the call sleeps and the time at which the command is subsequently sent,
which is also the value recorded into last_command_time. -/
structure RateLimitStep where
  sleep_time : Rat
  send_time : Rat
deriving Repr, DecidableEq

/-- Embedding of IRCSession._enforce_rate_limit (irc.py lines 354-364):
if less than rate_limit_delay elapsed since last_command_time, sleep the
remainder; then record the current time as last_command_time and send.
The clock is idealized: no time passes other than the sleep itself. -/
def enforce_rate_limit (last_command_time now : Rat) : RateLimitStep :=
  if now - last_command_time < rate_limit_delay then
    ⟨rate_limit_delay - (now - last_command_time),
      now + (rate_limit_delay - (now - last_command_time))⟩
  else
    ⟨0, now⟩

/-! ## Download fallback (src/app/services/irc.py, download_with_fallback) -/

/-- Candidate entry as consumed by download_with_fallback (irc.py lines
1704-1764): the dict fields it reads are candidate["server"] and
candidate["download_command"]. -/
structure FallbackCandidate where
  server : String
  download_command : String
deriving Repr, DecidableEq

/-- Embedding of the result dictionary of download_with_fallback: the success
path carries attempt_number, total_attempts and used_candidate; the aggregate
failure path carries total_attempts and candidates_tried. -/
structure FallbackResult where
  success : Bool
  attempt_number : Option Nat
  total_attempts : Nat
  used_candidate : Option FallbackCandidate
  candidates_tried : List String
deriving Repr, DecidableEq

/-- Embedding of the candidate loop of download_with_fallback (irc.py lines
1724-1756): the outcome oracle maps a download_command to the success of
_download_with_timeout for it (timeouts and exceptions count as failures,
which the loop treats identically: move on to the next candidate).  Returns
the 1-based attempt number and candidate of the first success, if any. -/
def fallback_find (outcome : String → Bool) : Nat → List FallbackCandidate →
    Option (Nat × FallbackCandidate)
  | _, [] => none
  | attempt, c :: rest =>
    if outcome c.download_command then some (attempt, c)
    else fallback_find outcome (attempt + 1) rest

/-- Servers of the candidates actually attempted by the loop of
download_with_fallback: every candidate up to and including the first
successful one, or all of them when none succeeds. -/
def fallback_attempted (outcome : String → Bool) : List FallbackCandidate → List String
  | [] => []
  | c :: rest =>
    if outcome c.download_command then [c.server]
    else c.server :: fallback_attempted outcome rest

/-- Embedding of IRCSession.download_with_fallback (irc.py lines 1704-1764):
empty candidate list fails immediately; otherwise try candidates in order,
return on first success annotated with the attempt number, and after all
candidates fail return the aggregate failure listing every candidate server. -/
def download_with_fallback (outcome : String → Bool)
    (candidates : List FallbackCandidate) : FallbackResult :=
  if candidates.isEmpty then ⟨false, none, 0, none, []⟩
  else
    match fallback_find outcome 1 candidates with
    | some (attempt, c) => ⟨true, some attempt, candidates.length, some c, []⟩
    | none =>
      ⟨false, none, candidates.length, none, candidates.map (fun c => c.server)⟩

/-! ## Python string primitives used by the parsers -/

/-- Whitespace class of Python str.strip / str.split / regex backslash-s. -/
def pySpace (c : Char) : Bool :=
  c == ' ' || c == '\t' || c == '\n' || c == '\r' || c == '\x0B' || c == '\x0C'

/-- Embedding of Python str.strip(). -/
def pyStrip (s : String) : String :=
  ⟨((s.data.dropWhile pySpace).reverse.dropWhile pySpace).reverse⟩

/-- Embedding of Python str.lower() on ASCII text. -/
def pyLower (s : String) : String :=
  ⟨s.data.map Char.toLower⟩

/-- Accumulating worker for pySplit. -/
def pySplitAux (acc : List Char) : List Char → List (List Char)
  | [] => if acc.isEmpty then [] else [acc.reverse]
  | c :: rest =>
    if pySpace c then
      if acc.isEmpty then pySplitAux [] rest
      else acc.reverse :: pySplitAux [] rest
    else pySplitAux (c :: acc) rest

/-- Embedding of Python str.split() with no separator: split on whitespace
runs, dropping empty fields. -/
def pySplit (s : String) : List String :=
  (pySplitAux [] s.data).map (fun l => ⟨l⟩)

/-- Worker: split a character list at the first occurrence of sep. -/
def splitOnceList (sep : List Char) : List Char → Option (List Char × List Char)
  | [] => if sep.isEmpty then some ([], []) else none
  | c :: rest =>
    if sep.isPrefixOf (c :: rest) then some ([], (c :: rest).drop sep.length)
    else
      match splitOnceList sep rest with
      | some (pre, post) => some (c :: pre, post)
      | none => none

/-- Embedding of Python s.split(sep, 1) when sep occurs in s (returns none
when it does not, matching the in-operator guards in the source). -/
def splitOnce (sep s : String) : Option (String × String) :=
  match splitOnceList sep.data s.data with
  | some (pre, post) => some (⟨pre⟩, ⟨post⟩)
  | none => none

/-- Containment of a character sequence, the Python in-operator on strings. -/
def containsSeq (needle : List Char) : List Char → Bool
  | [] => needle.isEmpty
  | c :: rest => needle.isPrefixOf (c :: rest) || containsSeq needle rest

/-- Index worker for findCI. -/
def findSeqIdx (needle : List Char) : Nat → List Char → Option Nat
  | i, [] => if needle.isEmpty then some i else none
  | i, c :: rest =>
    if needle.isPrefixOf (c :: rest) then some i
    else findSeqIdx needle (i + 1) rest

/-- Embedding of re.search for a literal pattern with re.IGNORECASE: the
start index of the leftmost case-insensitive occurrence of needle in hay. -/
def findCI (needle hay : String) : Option Nat :=
  findSeqIdx (needle.data.map Char.toLower) 0 (hay.data.map Char.toLower)

/-- Attempted match of the regex backslash-s star, open paren, non-paren
star, close paren, backslash-s star at the head of the list; on success
returns the text after the match. -/
def parenMatchAt (s : List Char) : Option (List Char) :=
  match s.dropWhile pySpace with
  | '(' :: t =>
    match splitOnceList [')'] t with
    | some (_, after) => some (after.dropWhile pySpace)
    | none => none
  | _ => none

/-- Fuel-driven worker for subParen: replace each leftmost non-overlapping
parenthetical match by one space, scanning left to right. -/
def subParenAux : Nat → List Char → List Char
  | 0, s => s
  | _ + 1, [] => []
  | fuel + 1, c :: rest =>
    match parenMatchAt (c :: rest) with
    | some after => ' ' :: subParenAux fuel after
    | none => c :: subParenAux fuel rest

/-- Embedding of re.sub of a whitespace-wrapped parenthetical group with a
single space (search_parser.py line 273). -/
def subParen (s : String) : String :=
  ⟨subParenAux s.data.length s.data⟩

/-! ## Search result parser (src/app/services/search_parser.py) -/

/-- Join of a string list with a separator, the Python str.join, defined on
character lists so that kernel reduction can evaluate it. -/
def pyJoin (sep : String) : List String → String
  | [] => ""
  | [x] => x
  | x :: y :: rest => x ++ sep ++ pyJoin sep (y :: rest)

/-- Embedding of SearchResultParser.FILE_TYPES (search_parser.py lines
39-55), in source order: the ordered extension list the parser probes. -/
def FILE_TYPES : List String :=
  ["epub", "mobi", "azw3", "html", "rtf", "pdf", "cdr", "lit", "cbr", "doc",
    "htm", "jpg", "txt", "rar", "zip"]

/-- Embedding of SearchResultParser.ARCHIVE_EXTENSIONS. -/
def ARCHIVE_EXTENSIONS : List String := ["rar", "zip"]

/-- Embedding of the BookDetail dataclass (search_parser.py lines 13-23). -/
structure BookDetail where
  server : String
  author : String
  title : String
  format : String
  size : String
  full_command : String
  raw_line : String
deriving Repr, DecidableEq

/-- Embedding of SearchResultParser._is_book_line: starts with the bot
prefix and mentions a known file extension. -/
def is_book_line (line : String) : Bool :=
  "!".data.isPrefixOf line.data &&
    FILE_TYPES.any (fun ext => containsSeq ("." ++ ext).data (pyLower line).data)

/-- Archive special case of _extract_author_title_format (search_parser.py
lines 246-250): when the matched extension is an archive, look for an inner
format named anywhere in the content. -/
def resolveArchiveFormat (ext : String) (content : String) : String :=
  if ext ∈ ARCHIVE_EXTENSIONS then
    match (FILE_TYPES.dropLast.dropLast).find?
        (fun inner => containsSeq inner.data (pyLower content).data) with
    | some inner => inner
    | none => ext
  else ext

/-- Embedding of SearchResultParser._extract_author_title_format
(search_parser.py lines 224-275): locate the first known extension, cut the
title part before it, split author and title on the literal separator or
guess, and scrub parentheticals from the title. -/
def extract_author_title_format (content : String) : String × String × String :=
  let fmtPos := FILE_TYPES.findSome?
    (fun ext => (findCI ("." ++ ext) content).map (fun i => (ext, i)))
  let file_format :=
    match fmtPos with
    | some (ext, _) => resolveArchiveFormat ext content
    | none => "unknown"
  let title_end_pos :=
    match fmtPos with
    | some (_, i) => i
    | none => content.data.length
  let title_content := pyStrip ⟨content.data.take title_end_pos⟩
  let author_title :=
    match splitOnce " - " title_content with
    | some (a, t) => (pyStrip a, pyStrip t)
    | none =>
      let words := pySplit title_content
      if words.length > 2 then
        (pyJoin " " (words.take 2), pyJoin " " (words.drop 2))
      else ("Unknown", title_content)
  (author_title.1, pyStrip (subParen author_title.2), file_format)

/-- Embedding of SearchResultParser._parse_info_format (search_parser.py
lines 137-169): lines carrying the explicit size-annotation marker. -/
def parse_info_format (line : String) : Option BookDetail :=
  match splitOnce "::INFO::" line with
  | none => none
  | some (main0, info) =>
    let main_part := pyStrip main0
    let size := pyStrip info
    let parts := pySplit main_part
    if parts.length < 2 then none
    else
      let server : String := ⟨(parts.headD "").data.drop 1⟩
      let content := pyJoin " " (parts.drop 1)
      let atf := extract_author_title_format content
      some ⟨server, atf.1, atf.2.1, atf.2.2, size, main_part, line⟩

/-- Embedding of SearchResultParser._parse_standard_format (search_parser.py
lines 171-194): the same layout without the size marker, size Unknown. -/
def parse_standard_format (line : String) : Option BookDetail :=
  let parts := pySplit line
  if parts.length < 2 then none
  else
    let server : String := ⟨(parts.headD "").data.drop 1⟩
    let content := pyJoin " " (parts.drop 1)
    let atf := extract_author_title_format content
    some ⟨server, atf.1, atf.2.1, atf.2.2, "Unknown", pyStrip line, line⟩

/-- Embedding of SearchResultParser._parse_simple_format (search_parser.py
lines 196-222): permissive fallback keeping the whole remainder as title. -/
def parse_simple_format (line : String) : Option BookDetail :=
  let parts := pySplit line
  if parts.length < 2 then none
  else
    let server : String := ⟨(parts.headD "").data.drop 1⟩
    let content := pyJoin " " (parts.drop 1)
    let file_format :=
      (FILE_TYPES.find?
        (fun ext => containsSeq ("." ++ ext).data (pyLower content).data)).getD "unknown"
    some ⟨server, "Unknown", content, file_format, "Unknown", pyStrip line, line⟩

/-- Embedding of SearchResultParser.parse_line (search_parser.py lines
97-126): reject non-book lines, then try the three layouts in order. -/
def parse_line (line : String) : Option BookDetail :=
  if is_book_line line then
    match parse_info_format line with
    | some r => some r
    | none =>
      match parse_standard_format line with
      | some r => some r
      | none => parse_simple_format line
  else none

/-! ## Title matching (src/app/services/irc.py, IRCSession._is_title_match) -/

/-- Embedding of IRCSession._is_title_match (irc.py lines 1826-1852) on
already-normalized titles: exact equality, substring containment in either
direction, or word-set overlap ratio of at least 0.7.  The Python float
ratio overlap/total is modelled exactly as a rational. -/
def is_title_match (target candidate : String) : Bool :=
  if target = "" ∨ candidate = "" then false
  else if target = candidate then true
  else if containsSeq target.data candidate.data ∨ containsSeq candidate.data target.data then
    true
  else if (pySplit target).toFinset = ∅ ∨ (pySplit candidate).toFinset = ∅ then false
  else
    decide ((7 : Rat) / 10 ≤
      (if 0 < ((pySplit target).toFinset ∪ (pySplit candidate).toFinset).card then
        (((pySplit target).toFinset ∩ (pySplit candidate).toFinset).card : Rat) /
          (((pySplit target).toFinset ∪ (pySplit candidate).toFinset).card : Rat)
      else 0))

/-! ## Title normalization and best-per-title ranking (src/app/services/irc.py) -/

/-- Attempted match of the bracketed-content regex (whitespace star, open
bracket, non-bracket star, close bracket, whitespace star) at the head. -/
def bracketMatchAt (s : List Char) : Option (List Char) :=
  match s.dropWhile pySpace with
  | '[' :: t =>
    match splitOnceList [']'] t with
    | some (_, after) => some (after.dropWhile pySpace)
    | none => none
  | _ => none

/-- Fuel-driven worker for subBracket. -/
def subBracketAux : Nat → List Char → List Char
  | 0, s => s
  | _ + 1, [] => []
  | fuel + 1, c :: rest =>
    match bracketMatchAt (c :: rest) with
    | some after => ' ' :: subBracketAux fuel after
    | none => c :: subBracketAux fuel rest

/-- Embedding of re.sub of whitespace-wrapped bracketed content with one
space (irc.py lines 1816-1818). -/
def subBracket (s : String) : String :=
  ⟨subBracketAux s.data.length s.data⟩

/-- Attempted match of the version-token regex (whitespace star, letter v,
digit plus, whitespace star) at the head of the list. -/
def versionMatchAt (s : List Char) : Option (List Char) :=
  match s.dropWhile pySpace with
  | 'v' :: t =>
    if (t.takeWhile Char.isDigit).isEmpty then none
    else some ((t.dropWhile Char.isDigit).dropWhile pySpace)
  | _ => none

/-- Fuel-driven worker for subVersion, replacing at most count matches. -/
def subVersionAux : Nat → Nat → List Char → List Char
  | _, 0, s => s
  | 0, _, s => s
  | _ + 1, _ + 1, [] => []
  | fuel + 1, count + 1, c :: rest =>
    match versionMatchAt (c :: rest) with
    | some after => ' ' :: subVersionAux fuel count after
    | none => c :: subVersionAux fuel (count + 1) rest

/-- Embedding of the version-token removal in _normalize_title (irc.py lines
1819-1821).  The source passes re.IGNORECASE as the positional count
argument of re.sub, so at most 2 matches are replaced (case handling is moot
because the text was already lowercased). -/
def subVersion (s : String) : String :=
  ⟨subVersionAux s.data.length 2 s.data⟩

/-- Whitespace-run collapse, the re.sub of whitespace plus with one space
(irc.py line 1822). -/
def collapseWs : List Char → List Char
  | [] => []
  | [c] => if pySpace c then [' '] else [c]
  | c :: d :: rest =>
    if pySpace c then
      if pySpace d then collapseWs (d :: rest)
      else ' ' :: collapseWs (d :: rest)
    else c :: collapseWs (d :: rest)

/-- Sequential removal of the leading articles the, a, an (irc.py lines
1807-1810): each prefix is tested once, in order, on the running result. -/
def stripArticles (s : String) : String :=
  let l0 := s.data
  let l1 := if "the ".data.isPrefixOf l0 then l0.drop 4 else l0
  let l2 := if "a ".data.isPrefixOf l1 then l1.drop 2 else l1
  let l3 := if "an ".data.isPrefixOf l2 then l2.drop 3 else l2
  (⟨l3⟩ : String)

/-- Embedding of IRCSession._normalize_title (irc.py lines 1799-1824):
lowercase and strip, drop a leading article, scrub parenthetical and
bracketed content and up to two version tokens, collapse whitespace. -/
def normalize_title (title : String) : String :=
  if title = "" then ""
  else
    pyStrip
      ⟨collapseWs (subVersion (subBracket (subParen
        (stripArticles (pyStrip (pyLower title)))))).data⟩

/-- Book record as grouped and ranked by search_author_level and
_select_best_candidate: the dict fields those functions read. -/
structure BookCandidate where
  server : String
  author : String
  title : String
  format : String
  size : String
  download_command : String
deriving Repr, DecidableEq

/-- Normalized grouping key of a record (irc.py line 1552). -/
def titleKey (r : BookCandidate) : String :=
  normalize_title r.title

/-- Keys of the title_groups dict built by search_author_level (irc.py lines
1550-1555), in first-occurrence order (Python dict insertion order). -/
def titleKeys : List BookCandidate → List String
  | [] => []
  | r :: rs =>
    titleKey r :: titleKeys (rs.filter (fun x => titleKey x ≠ titleKey r))
termination_by l => l.length
decreasing_by
  simp only [List.length_cons]
  exact Nat.lt_succ_of_le (List.length_filter_le _ _)

/-- Embedding of IRCSession._select_best_candidate (irc.py lines 1854-1881)
for an arbitrary score function: stable descending sort by score followed by
taking the head picks the leftmost record of maximal score, which the foldl
computes directly; a singleton list is returned as is (irc.py line 1862). -/
def select_best_candidate (score : BookCandidate → Rat) :
    List BookCandidate → Option BookCandidate
  | [] => none
  | c :: rest =>
    some (rest.foldl (fun best x => if score best < score x then x else best) c)

/-- Best-per-title pass of search_author_level (irc.py lines 1550-1564):
group records by normalized title in first-occurrence order and keep the
best-scoring record of each group.  The score is a parameter because
_calculate_candidate_score computes a float from math.log10; the grouping
and selection structure is independent of it. -/
def best_per_title (score : BookCandidate → Rat) (rs : List BookCandidate) :
    List BookCandidate :=
  (titleKeys rs).filterMap
    (fun k => select_best_candidate score (rs.filter (fun r => titleKey r = k)))

/-! ## Session registry (src/app/services/irc.py, lines 1996-2039) -/

/-- Registry model: the module-level _active_sessions dict from session id
to session object, in insertion order; sessions are identified by an
abstract numeric tag. -/
abbrev SessionRegistry := List (String × Nat)

/-- Dict lookup: the binding of the first matching key. -/
def registry_lookup : SessionRegistry → String → Option Nat
  | [], _ => none
  | (k0, v) :: rest, k => if k0 = k then some v else registry_lookup rest k

/-- Embedding of create_irc_session (irc.py lines 2001-2023): the new
session id is derived from the clock second (irc.py line 54), and the dict
assignment _active_sessions[session.session_id] = session overwrites the
binding in place when the key is already present, otherwise appends it. -/
def create_irc_session (reg : SessionRegistry) (session_id : String)
    (session : Nat) : SessionRegistry :=
  if (registry_lookup reg session_id).isSome then
    reg.map (fun p => if p.1 = session_id then (session_id, session) else p)
  else reg ++ [(session_id, session)]

/-- Embedding of close_session (irc.py lines 2032-2039): pop the entry and
return true when the id is present, else return false with the registry
unchanged. -/
def close_session (reg : SessionRegistry) (session_id : String) :
    Bool × SessionRegistry :=
  match registry_lookup reg session_id with
  | some _ => (true, reg.eraseP (fun p => p.1 = session_id))
  | none => (false, reg)

/-- Keys of the registry are pairwise distinct, the Python dict invariant
underlying each id mapping to at most one session. -/
def RegistryKeysNodup (reg : SessionRegistry) : Prop :=
  (reg.map Prod.fst).Nodup

/-! ## Regex engine for the enhanced line parser
(src/app/services/irc.py, _parse_single_book_line_enhanced and
_extract_size_from_info).  The patterns of those functions use only
character classes, greedy and lazy plus, optional pieces, literals and the
end anchor, all under re.IGNORECASE; they are embedded into a small regex
AST evaluated by a priority-correct backtracking matcher (leftmost
alternative first, greedy repetition longest-first, lazy shortest-first). -/

/-- Regex abstract syntax: eps, single character class, case-insensitive
literal, sequence, prioritized alternative, capture group, character-class
star with greediness flag, general star with greediness flag, end anchor. -/
inductive RE where
  | eps : RE
  | cls : (Char → Bool) → RE
  | lit : List Char → RE
  | seq : RE → RE → RE
  | alt : RE → RE → RE
  | group : Nat → RE → RE
  | starC : Bool → (Char → Bool) → RE
  | starR : Bool → RE → RE
  | eos : RE

/-- Captured groups: group index to captured characters (latest first). -/
abbrev ReCaps := List (Nat × List Char)

/-- Case-insensitive comparison of a literal against the head of the input. -/
def ciStartsWith : List Char → List Char → Bool
  | [], _ => true
  | _ :: _, [] => false
  | a :: as, b :: bs => (a.toLower == b.toLower) && ciStartsWith as bs

/-- Repetition counts to try for a class star over a run of m matching
characters: greedy tries longest first, lazy shortest first. -/
def countOrder (greedy : Bool) (m : Nat) : List Nat :=
  if greedy then (List.range (m + 1)).reverse else List.range (m + 1)

/-- Fuel-bounded iterator for a general star: body is the matcher of the
star body, which must consume input for the iteration to continue (the
patterns embedded here have no nullable star bodies), so fuel equal to the
input length suffices.  Greedy tries one more iteration first, lazy tries
the continuation first. -/
def reStarIter
    (body : List Char → ReCaps → (List Char → ReCaps → Option ReCaps) → Option ReCaps)
    (g : Bool) : Nat → List Char → ReCaps → (List Char → ReCaps → Option ReCaps) →
    Option ReCaps
  | 0, s, caps, k => k s caps
  | fuel + 1, s, caps, k =>
    if g then
      Option.orElse
        (body s caps (fun s2 caps2 =>
          if s2.length < s.length then reStarIter body g fuel s2 caps2 k else none))
        (fun _ => k s caps)
    else
      Option.orElse (k s caps)
        (fun _ => body s caps (fun s2 caps2 =>
          if s2.length < s.length then reStarIter body g fuel s2 caps2 k else none))

/-- Backtracking matcher in continuation-passing style.  The continuation
receives the remaining input and captures; the recursion is structural on
the regex, with general stars delegated to the fuel-bounded iterator. -/
def reMatch (fuel : Nat) : RE → List Char → ReCaps → (List Char → ReCaps → Option ReCaps) →
    Option ReCaps
  | .eps, s, caps, k => k s caps
  | .eos, s, caps, k => if s.isEmpty then k s caps else none
  | .cls _, [], _, _ => none
  | .cls p, c :: s, caps, k => if p c then k s caps else none
  | .lit l, s, caps, k => if ciStartsWith l s then k (s.drop l.length) caps else none
  | .seq a b, s, caps, k =>
    reMatch fuel a s caps (fun s2 caps2 => reMatch fuel b s2 caps2 k)
  | .alt a b, s, caps, k =>
    Option.orElse (reMatch fuel a s caps k) (fun _ => reMatch fuel b s caps k)
  | .group i r, s, caps, k =>
    reMatch fuel r s caps (fun s2 caps2 =>
      k s2 ((i, s.take (s.length - s2.length)) :: caps2))
  | .starC g p, s, caps, k =>
    (countOrder g (s.takeWhile p).length).findSome? (fun n => k (s.drop n) caps)
  | .starR g r, s, caps, k =>
    reStarIter (fun s2 caps2 k2 => reMatch fuel r s2 caps2 k2) g fuel s caps k

/-- Anchored match at the start of the string, re.match: returns the
captured groups of the first match in backtracking priority order. -/
def reMatchGroups (re : RE) (s : String) : Option ReCaps :=
  reMatch (s.data.length + 1) re s.data [] (fun _ caps => some caps)

/-- Unanchored search, re.search: try a match at each successive start
position, leftmost first. -/
def reSearchGroups (re : RE) : List Char → Option ReCaps
  | [] => reMatch 1 re [] [] (fun _ caps => some caps)
  | c :: rest =>
    Option.orElse (reMatch ((c :: rest).length + 1) re (c :: rest) [] (fun _ caps => some caps))
      (fun _ => reSearchGroups re rest)

/-- Captured text of a group as a string. -/
def getGroup (caps : ReCaps) (i : Nat) : Option String :=
  match caps.lookup i with
  | some l => some (⟨l⟩ : String)
  | none => none

/-- Character class of the regex dot: anything but a newline. -/
def reAny (c : Char) : Bool := c != '\n'

/-- Character class of the alphanumeric extension group. -/
def reAlnum (c : Char) : Bool := c.isAlphanum

/-- Negated class excluding the closing angle bracket. -/
def reNoGt (c : Char) : Bool := c != '>'

/-- Negated class excluding the bot prefix and whitespace. -/
def reNoBangNoWs (c : Char) : Bool := c != '!' && !pySpace c

/-- Digit class. -/
def reDigit (c : Char) : Bool := c.isDigit

/-- Size-unit class under re.IGNORECASE. -/
def reKMGT (c : Char) : Bool :=
  c.toLower == 'k' || c.toLower == 'm' || c.toLower == 'g' || c.toLower == 't'

/-- One-or-more repetition of a character class. -/
def plusC (g : Bool) (p : Char → Bool) : RE := .seq (.cls p) (.starC g p)

/-- One-or-more whitespace, greedy. -/
def wsPlus : RE := plusC true pySpace

/-- Greedy optional piece. -/
def reOpt (r : RE) : RE := .alt r .eps

/-- Sequence of regex pieces. -/
def catAll : List RE → RE
  | [] => .eps
  | [r] => r
  | r :: rest => .seq r (catAll rest)

/-- Embedding of the first pattern of _parse_single_book_line_enhanced
(irc.py line 1081): bot-tag line with dash separator and size info. -/
def enhancedPat1 : RE := catAll [
  .lit ['!'],
  .group 1 (plusC true reNoGt),
  wsPlus,
  .group 2 (plusC false reAny),
  wsPlus, .lit ['-'], wsPlus,
  .group 3 (plusC false reAny),
  .lit ['.'],
  .group 4 (plusC true reAlnum),
  wsPlus,
  .lit "::INFO::".data,
  wsPlus,
  .group 5 (plusC true reAny),
  .eos]

/-- Embedding of the second pattern (irc.py line 1083): same without the
size-annotation marker. -/
def enhancedPat2 : RE := catAll [
  .lit ['!'],
  .group 1 (plusC true reNoGt),
  wsPlus,
  .group 2 (plusC false reAny),
  wsPlus, .lit ['-'], wsPlus,
  .group 3 (plusC false reAny),
  .lit ['.'],
  .group 4 (plusC true reAlnum),
  wsPlus,
  .group 5 (plusC true reAny),
  .eos]

/-- Embedding of the third pattern (irc.py line 1085): angle-bracketed tag. -/
def enhancedPat3 : RE := catAll [
  .lit ['<', '!'],
  .group 1 (plusC true reNoGt),
  .lit ['>'],
  wsPlus,
  .group 2 (plusC false reAny),
  wsPlus, .lit ['-'], wsPlus,
  .group 3 (plusC false reAny),
  .lit ['.'],
  .group 4 (plusC true reAlnum),
  wsPlus,
  .group 5 (plusC true reAny),
  .eos]

/-- Embedding of the fourth pattern (irc.py line 1087): tag without the bot
prefix. -/
def enhancedPat4 : RE := catAll [
  .group 1 (plusC true reNoBangNoWs),
  wsPlus,
  .group 2 (plusC false reAny),
  wsPlus, .lit ['-'], wsPlus,
  .group 3 (plusC false reAny),
  .lit ['.'],
  .group 4 (plusC true reAlnum),
  wsPlus,
  .group 5 (plusC true reAny),
  .eos]

/-- Embedding of the first size pattern of _extract_size_from_info (irc.py
line 1131): number with optional fraction, optional unit letter and B. -/
def sizePat1 : RE := .group 1 (catAll [
  plusC true reDigit,
  reOpt (.seq (.lit ['.']) (plusC true reDigit)),
  .starC true pySpace,
  reOpt (.cls reKMGT),
  .lit ['B']])

/-- Embedding of the second size pattern (irc.py line 1132): unit without B. -/
def sizePat2 : RE := .group 1 (catAll [
  plusC true reDigit,
  reOpt (.seq (.lit ['.']) (plusC true reDigit)),
  .starC true pySpace,
  .cls reKMGT])

/-- Embedding of the third size pattern (irc.py line 1133): comma-grouped
byte count. -/
def sizePat3 : RE := .group 1 (catAll [
  plusC true reDigit,
  .starR true (.seq (.lit [',']) (plusC true reDigit)),
  .starC true pySpace,
  .lit "byte".data,
  reOpt (.lit ['s'])])

/-! ## Enhanced archive-line parser (src/app/services/irc.py) -/

/-- Embedding of IRCSession._extract_size_from_info (irc.py lines
1127-1142): first matching size pattern wins, else the first 20 characters
stripped. -/
def extract_size_from_info (size_info : String) : String :=
  match [sizePat1, sizePat2, sizePat3].findSome?
      (fun pat => (reSearchGroups pat size_info.data).bind (fun caps => getGroup caps 1)) with
  | some sz => sz
  | none => pyStrip (⟨size_info.data.take 20⟩ : String)

/-- Embedding of IRCSession._is_valid_ebook_extension (irc.py lines
1144-1164): the fixed allow-list of ebook formats. -/
def valid_ebook_extensions : List String :=
  ["epub", "mobi", "azw", "azw3", "pdf", "txt", "html", "htm", "rtf", "doc",
    "docx", "lit", "pdb", "fb2", "djvu", "chm"]

/-- Membership in the ebook-extension allow-list after lowercasing. -/
def is_valid_ebook_extension (extension : String) : Bool :=
  valid_ebook_extensions.contains (pyLower extension)

/-- Embedding of the dict returned by _parse_single_book_line_enhanced
(irc.py lines 1112-1122). -/
structure BookInfo where
  server : String
  author : String
  title : String
  extension : String
  size : String
  raw_line : String
  source_file : String
  line_number : Nat
  full_command : String
deriving Repr, DecidableEq

/-- Validation and record construction of _parse_single_book_line_enhanced
(irc.py lines 1095-1122) on the five cleaned groups: reject unless the
extension is allow-listed and author and title both have at least 2
characters. -/
def enhanced_record (line source_file : String) (line_num : Nat)
    (g1 g2 g3 g4 g5 : String) : Option BookInfo :=
  if ¬ is_valid_ebook_extension (pyStrip (pyLower g4)) then none
  else if (pyStrip g2).length < 2 ∨ (pyStrip g3).length < 2 then none
  else
    some ⟨pyStrip g1, pyStrip g2, pyStrip g3, pyStrip (pyLower g4),
      extract_size_from_info g5, line, source_file, line_num,
      "!" ++ pyStrip g1 ++ " " ++ pyStrip g2 ++ " - " ++ pyStrip g3 ++ "." ++
        pyStrip (pyLower g4)⟩

/-- One iteration of the pattern loop of _parse_single_book_line_enhanced
(irc.py lines 1090-1122): match the pattern, extract the five groups and
validate. -/
def try_enhanced_pattern (pat : RE) (line source_file : String) (line_num : Nat) :
    Option BookInfo :=
  match reMatchGroups pat line with
  | none => none
  | some caps =>
    match getGroup caps 1, getGroup caps 2, getGroup caps 3, getGroup caps 4,
        getGroup caps 5 with
    | some g1, some g2, some g3, some g4, some g5 =>
      enhanced_record line source_file line_num g1 g2 g3 g4 g5
    | _, _, _, _, _ => none

/-- Embedding of IRCSession._parse_single_book_line_enhanced (irc.py lines
1065-1125): try the four patterns in order; a pattern whose match fails the
validation guards falls through to the next pattern; no match yields none. -/
def parse_single_book_line_enhanced (line source_file : String) (line_num : Nat) :
    Option BookInfo :=
  [enhancedPat1, enhancedPat2, enhancedPat3, enhancedPat4].findSome?
    (fun pat => try_enhanced_pattern pat line source_file line_num)

end GhostBooks

namespace GhostBooks

/-! ## Helper lemmas -/

theorem fallback_find_all_fail (outcome : String → Bool)
    (l : List FallbackCandidate) (h : ∀ d ∈ l, outcome d.download_command = false) :
    ∀ a, fallback_find outcome a l = none := by
  induction l with
  | nil => intro a; rfl
  | cons c rest ih =>
    intro a
    have hc : outcome c.download_command = false := h c (by simp)
    simp only [fallback_find, hc, Bool.false_eq_true, if_false]
    exact ih (fun d hd => h d (by simp [hd])) (a + 1)

theorem fallback_find_append (outcome : String → Bool)
    (pre : List FallbackCandidate) (c : FallbackCandidate)
    (post : List FallbackCandidate)
    (hpre : ∀ d ∈ pre, outcome d.download_command = false)
    (hc : outcome c.download_command = true) :
    ∀ a, fallback_find outcome a (pre ++ c :: post) = some (a + pre.length, c) := by
  induction pre with
  | nil => intro a; simp [fallback_find, hc]
  | cons p rest ih =>
    intro a
    have hp : outcome p.download_command = false := hpre p (by simp)
    simp only [List.cons_append, fallback_find, hp, Bool.false_eq_true, if_false,
      List.append_eq]
    rw [ih (fun d hd => hpre d (by simp [hd])) (a + 1), List.length_cons]
    congr 2
    omega

theorem fallback_attempted_append (outcome : String → Bool)
    (pre : List FallbackCandidate) (c : FallbackCandidate)
    (post : List FallbackCandidate)
    (hpre : ∀ d ∈ pre, outcome d.download_command = false)
    (hc : outcome c.download_command = true) :
    fallback_attempted outcome (pre ++ c :: post) = (pre ++ [c]).map (fun d => d.server) := by
  induction pre with
  | nil => simp [fallback_attempted, hc]
  | cons p rest ih =>
    have hp : outcome p.download_command = false := hpre p (by simp)
    simp only [List.cons_append, fallback_attempted, hp, Bool.false_eq_true, if_false,
      List.map_cons, List.append_eq]
    rw [ih (fun d hd => hpre d (by simp [hd]))]

/-! ## Claim theorems -/

/-- C1: DCCHandler.download_file declares success if and only if the number
of bytes received equals the declared size; in particular an offer declaring
size 1000 whose peer closes after delivering 800 bytes yields success=false,
received=800, expected=1000 — never a partial success. -/
theorem c1_download_success_iff_size :
    (∀ (dcc : DCCDownload) (trace : List Nat),
      ((download_file dcc trace).success = true ↔
        (download_file dcc trace).received = dcc.size)) ∧
    download_file ⟨"book.epub", "192.168.1.1", "2043", 1000, "raw"⟩ [800, 0] =
      ⟨false, 800, 1000, 2⟩ := by
  constructor
  · intro dcc trace
    rcases hloop : download_loop dcc.size 0 0 trace with ⟨received, calls⟩
    simp only [download_file, hloop]
    split
    · rename_i hne
      simpa using hne
    · rename_i hne
      simpa using not_not.mp hne
  · rfl

/-- C10: for an offer with declared size 0 whose connection succeeds, the
receive loop of DCCHandler.download_file performs no recv calls (the loop
condition received < size fails immediately, so the opened destination file
stays empty) and the result is success=true with size 0. -/
theorem c10_zero_size_download (dcc : DCCDownload) (trace : List Nat)
    (h : dcc.size = 0) :
    download_file dcc trace = ⟨true, 0, 0, 0⟩ := by
  cases trace <;> simp [download_file, download_loop, h]

/-- C10 witness: a concrete zero-size offer with a nonempty delivery trace. -/
theorem c10_zero_size_download_witness :
    download_file ⟨"empty.epub", "10.0.0.1", "2000", 0, "raw"⟩ [5, 0] =
      ⟨true, 0, 0, 0⟩ :=
  c10_zero_size_download ⟨"empty.epub", "10.0.0.1", "2000", 0, "raw"⟩ [5, 0] rfl

/-- C4: DCCHandler._int_to_ip decodes an unsigned 32-bit big-endian integer
as four dot-separated decimal octets; 3232235777 decodes to 192.168.1.1; and
any integer not fitting in 32 bits yields the sentinel 0.0.0.0 instead of
raising. -/
theorem c4_int_to_ip :
    (∀ a b c d : Nat, a < 256 → b < 256 → c < 256 → d < 256 →
      int_to_ip (a * 16777216 + b * 65536 + c * 256 + d) =
        toString a ++ "." ++ toString b ++ "." ++ toString c ++ "." ++ toString d) ∧
    int_to_ip 3232235777 = "192.168.1.1" ∧
    (∀ n : Nat, 4294967296 ≤ n → int_to_ip n = "0.0.0.0") := by
  refine ⟨?_, by rfl, ?_⟩
  · intro a b c d ha hb hc hd
    have hlt : a * 16777216 + b * 65536 + c * 256 + d < 4294967296 := by omega
    have h1 : (a * 16777216 + b * 65536 + c * 256 + d) / 16777216 % 256 = a := by omega
    have h2 : (a * 16777216 + b * 65536 + c * 256 + d) / 65536 % 256 = b := by omega
    have h3 : (a * 16777216 + b * 65536 + c * 256 + d) / 256 % 256 = c := by omega
    have h4 : (a * 16777216 + b * 65536 + c * 256 + d) % 256 = d := by omega
    unfold int_to_ip
    rw [if_pos hlt, h1, h2, h3, h4]
  · intro n hn
    unfold int_to_ip
    rw [if_neg (by omega)]

/-- C4 witness: the octet rendering applied at 192.168.1.1 and the sentinel
case applied at the first integer not fitting in 32 bits. -/
theorem c4_int_to_ip_witness :
    int_to_ip (192 * 16777216 + 168 * 65536 + 1 * 256 + 1) =
      toString 192 ++ "." ++ toString 168 ++ "." ++ toString 1 ++ "." ++ toString 1 ∧
    int_to_ip 4294967296 = "0.0.0.0" :=
  ⟨c4_int_to_ip.1 192 168 1 1 (by decide) (by decide) (by decide) (by decide),
    c4_int_to_ip.2.2 4294967296 (by decide)⟩

/-- C2: the enforced wait of IRCSession._enforce_rate_limit guarantees that
at least rate_limit_delay seconds separate the send from the recorded
last-command timestamp (sleeping the remainder when the elapsed time is below
the minimum), hence at least rate_limit_delay elapses between any two
consecutive sends, for any interleaving of commands on one session. -/
theorem c2_rate_limit_minimum_interval :
    (∀ last now : Rat,
      rate_limit_delay ≤ (enforce_rate_limit last now).send_time - last) ∧
    (∀ last now1 now2 : Rat,
      rate_limit_delay ≤
        (enforce_rate_limit (enforce_rate_limit last now1).send_time now2).send_time -
          (enforce_rate_limit last now1).send_time) := by
  have step : ∀ last now : Rat,
      rate_limit_delay ≤ (enforce_rate_limit last now).send_time - last := by
    intro last now
    unfold enforce_rate_limit
    split
    · simp only
      linarith
    · simp only
      linarith [not_lt.mp (by assumption : ¬ now - last < rate_limit_delay)]
  exact ⟨step, fun last now1 now2 => step _ now2⟩

/-- C3: download_with_fallback returns, when the candidates before position N
all fail and candidate N succeeds, a success result whose attempt_number is N,
attempting no candidate beyond the first successful one; and when every
candidate of a nonempty list fails it returns an aggregate failure whose
candidates_tried lists the server of every candidate. -/
theorem c3_download_with_fallback :
    (∀ (outcome : String → Bool) (pre : List FallbackCandidate)
        (c : FallbackCandidate) (post : List FallbackCandidate),
      (∀ d ∈ pre, outcome d.download_command = false) →
      outcome c.download_command = true →
      (download_with_fallback outcome (pre ++ c :: post)).success = true ∧
      (download_with_fallback outcome (pre ++ c :: post)).attempt_number =
        some (pre.length + 1) ∧
      fallback_attempted outcome (pre ++ c :: post) =
        (pre ++ [c]).map (fun d => d.server)) ∧
    (∀ (outcome : String → Bool) (candidates : List FallbackCandidate),
      candidates ≠ [] →
      (∀ d ∈ candidates, outcome d.download_command = false) →
      (download_with_fallback outcome candidates).success = false ∧
      (download_with_fallback outcome candidates).candidates_tried =
        candidates.map (fun d => d.server)) := by
  constructor
  · intro outcome pre c post hpre hc
    have hfind := fallback_find_append outcome pre c post hpre hc 1
    have hemp : (pre ++ c :: post).isEmpty = false := by
      cases pre <;> rfl
    refine ⟨?_, ?_, fallback_attempted_append outcome pre c post hpre hc⟩
    · simp [download_with_fallback, hemp, hfind]
    · simp [download_with_fallback, hemp, hfind]
      omega
  · intro outcome candidates hne hfail
    have hfind := fallback_find_all_fail outcome candidates hfail 1
    have hemp : candidates.isEmpty = false := by
      cases candidates with
      | nil => exact absurd rfl hne
      | cons a l => rfl
    constructor <;> simp [download_with_fallback, hemp, hfind]

/-- C3 witness: three candidates where the first fails and the second
succeeds, and a single all-failing candidate list. -/
theorem c3_download_with_fallback_witness :
    ((download_with_fallback (fun s => s == "ok")
        (([⟨"s1", "bad1"⟩] : List FallbackCandidate) ++
          (⟨"s2", "ok"⟩ : FallbackCandidate) ::
            ([⟨"s3", "bad3"⟩] : List FallbackCandidate))).success = true ∧
      (download_with_fallback (fun s => s == "ok")
        (([⟨"s1", "bad1"⟩] : List FallbackCandidate) ++
          (⟨"s2", "ok"⟩ : FallbackCandidate) ::
            ([⟨"s3", "bad3"⟩] : List FallbackCandidate))).attempt_number =
        some (([⟨"s1", "bad1"⟩] : List FallbackCandidate).length + 1) ∧
      fallback_attempted (fun s => s == "ok")
        (([⟨"s1", "bad1"⟩] : List FallbackCandidate) ++
          (⟨"s2", "ok"⟩ : FallbackCandidate) ::
            ([⟨"s3", "bad3"⟩] : List FallbackCandidate)) =
        (([⟨"s1", "bad1"⟩] : List FallbackCandidate) ++
          ([⟨"s2", "ok"⟩] : List FallbackCandidate)).map (fun d => d.server)) ∧
    ((download_with_fallback (fun s => s == "ok")
        ([⟨"s1", "bad1"⟩] : List FallbackCandidate)).success = false ∧
      (download_with_fallback (fun s => s == "ok")
        ([⟨"s1", "bad1"⟩] : List FallbackCandidate)).candidates_tried =
        ([⟨"s1", "bad1"⟩] : List FallbackCandidate).map (fun d => d.server)) :=
  ⟨c3_download_with_fallback.1 (fun s => s == "ok")
      [⟨"s1", "bad1"⟩] ⟨"s2", "ok"⟩ [⟨"s3", "bad3"⟩] (by decide) (by decide),
    c3_download_with_fallback.2 (fun s => s == "ok")
      [⟨"s1", "bad1"⟩] (by decide) (by decide)⟩

/-- C5: the scenario line with the size-annotation marker parses, via the
first pattern attempted (_parse_info_format), to exactly the record with
server Ook, author F Scott Fitzgerald, title The Great Gatsby, format epub
and size text 332.7KB. -/
theorem c5_info_format_scenario :
    parse_info_format
        "!Ook F Scott Fitzgerald - The Great Gatsby.epub  ::INFO:: 332.7KB" =
      some ⟨"Ook", "F Scott Fitzgerald", "The Great Gatsby", "epub", "332.7KB",
        "!Ook F Scott Fitzgerald - The Great Gatsby.epub",
        "!Ook F Scott Fitzgerald - The Great Gatsby.epub  ::INFO:: 332.7KB"⟩ ∧
    parse_line
        "!Ook F Scott Fitzgerald - The Great Gatsby.epub  ::INFO:: 332.7KB" =
      some ⟨"Ook", "F Scott Fitzgerald", "The Great Gatsby", "epub", "332.7KB",
        "!Ook F Scott Fitzgerald - The Great Gatsby.epub",
        "!Ook F Scott Fitzgerald - The Great Gatsby.epub  ::INFO:: 332.7KB"⟩ := by
  constructor <;> decide

/-- C6 counterexample: SearchResultParser.parse_line does produce a record
whose title has fewer than 2 characters (the claimed minimum-length
validation exists only in IRCSession._parse_single_book_line_enhanced, not
in SearchResultParser): the book line with a one-letter title parses via the
standard-format branch to a record with title x of length 1. -/
theorem c6_counterexample_short_title :
    parse_line "!Ook x.epub" =
      some ⟨"Ook", "Unknown", "x", "epub", "Unknown", "!Ook x.epub",
        "!Ook x.epub"⟩ ∧
    (BookDetail.mk "Ook" "Unknown" "x" "epub" "Unknown" "!Ook x.epub"
        "!Ook x.epub").title.length < 2 := by
  constructor <;> decide

/-- C7: the title-match relation of IRCSession._is_title_match is symmetric:
every clause (equality, substring containment in either direction, word-set
overlap ratio at least 0.7) is invariant under swapping the two titles. -/
theorem c7_title_match_symmetric : ∀ a b : String, is_title_match a b = is_title_match b a := by
  intro a b
  have e1 : (b = "" ∨ a = "") ↔ (a = "" ∨ b = "") := or_comm
  have e2 : (b = a) ↔ (a = b) := eq_comm
  have e3 : (containsSeq b.data a.data = true ∨ containsSeq a.data b.data = true) ↔
      (containsSeq a.data b.data = true ∨ containsSeq b.data a.data = true) := or_comm
  have e4 : ((pySplit b).toFinset = ∅ ∨ (pySplit a).toFinset = ∅) ↔
      ((pySplit a).toFinset = ∅ ∨ (pySplit b).toFinset = ∅) := or_comm
  simp only [is_title_match, e1, e2, e3, e4,
    Finset.inter_comm ((pySplit b).toFinset), Finset.union_comm ((pySplit b).toFinset)]


/-! ## Helper lemmas for best-per-title idempotence (C8) -/

theorem foldl_best_mem (score : BookCandidate → Rat) :
    ∀ (rest : List BookCandidate) (c : BookCandidate),
      rest.foldl (fun best x => if score best < score x then x else best) c ∈ c :: rest := by
  intro rest
  induction rest with
  | nil => intro c; simp
  | cons x xs ih =>
    intro c
    simp only [List.foldl_cons]
    by_cases h : score c < score x
    · rw [if_pos h]
      have hm := ih x
      simp only [List.mem_cons] at hm ⊢
      tauto
    · rw [if_neg h]
      have hm := ih c
      simp only [List.mem_cons] at hm ⊢
      tauto

theorem select_best_mem (score : BookCandidate → Rat) (l : List BookCandidate)
    (r : BookCandidate) (h : select_best_candidate score l = some r) : r ∈ l := by
  cases l with
  | nil => simp [select_best_candidate] at h
  | cons c rest =>
    simp only [select_best_candidate, Option.some.injEq] at h
    exact h ▸ foldl_best_mem score rest c

theorem titleKeys_mem_aux :
    ∀ (n : Nat) (l : List BookCandidate), l.length ≤ n →
      ∀ k ∈ titleKeys l, ∃ r ∈ l, titleKey r = k := by
  intro n
  induction n with
  | zero =>
    intro l hl k hk
    have hnil : l = [] := List.length_eq_zero.mp (Nat.le_zero.mp hl)
    subst hnil
    simp [titleKeys] at hk
  | succ n ih =>
    intro l hl k hk
    cases l with
    | nil => simp [titleKeys] at hk
    | cons r rs =>
      rw [titleKeys] at hk
      rcases List.mem_cons.mp hk with h | h
      · exact ⟨r, by simp, h.symm⟩
      · have hlen : (rs.filter (fun x => titleKey x ≠ titleKey r)).length ≤ n := by
          have hle := List.length_filter_le (fun x => decide (titleKey x ≠ titleKey r)) rs
          simp only [List.length_cons] at hl
          omega
        obtain ⟨x, hx, hxk⟩ := ih _ hlen k h
        exact ⟨x, List.mem_cons_of_mem r (List.mem_of_mem_filter hx), hxk⟩

theorem titleKeys_mem (l : List BookCandidate) (k : String)
    (hk : k ∈ titleKeys l) : ∃ r ∈ l, titleKey r = k :=
  titleKeys_mem_aux l.length l le_rfl k hk

theorem titleKeys_nodup_aux :
    ∀ (n : Nat) (l : List BookCandidate), l.length ≤ n → (titleKeys l).Nodup := by
  intro n
  induction n with
  | zero =>
    intro l hl
    have hnil : l = [] := List.length_eq_zero.mp (Nat.le_zero.mp hl)
    subst hnil
    simp [titleKeys]
  | succ n ih =>
    intro l hl
    cases l with
    | nil => simp [titleKeys]
    | cons r rs =>
      rw [titleKeys]
      refine List.nodup_cons.mpr ⟨?_, ih _ ?_⟩
      · intro hmem
        obtain ⟨x, hx, hxk⟩ := titleKeys_mem _ _ hmem
        have hne := (List.mem_filter.mp hx).2
        simp only [decide_eq_true_eq] at hne
        exact hne hxk
      · have hle := List.length_filter_le (fun x => decide (titleKey x ≠ titleKey r)) rs
        simp only [List.length_cons] at hl
        omega

theorem titleKeys_nodup (l : List BookCandidate) : (titleKeys l).Nodup :=
  titleKeys_nodup_aux l.length l le_rfl

theorem titleKeys_of_nodup :
    ∀ (l : List BookCandidate), (l.map titleKey).Nodup → titleKeys l = l.map titleKey := by
  intro l
  induction l with
  | nil => intro _; simp [titleKeys]
  | cons r rs ih =>
    intro h
    simp only [List.map_cons] at h
    have hnotin : titleKey r ∉ rs.map titleKey := (List.nodup_cons.mp h).1
    rw [titleKeys]
    have hfil : rs.filter (fun x => titleKey x ≠ titleKey r) = rs := by
      apply List.filter_eq_self.mpr
      intro x hx
      simp only [decide_eq_true_eq]
      intro hEq
      exact hnotin (hEq ▸ List.mem_map_of_mem titleKey hx)
    rw [hfil, ih (List.nodup_cons.mp h).2, List.map_cons]

theorem filter_key_singleton :
    ∀ (l : List BookCandidate), (l.map titleKey).Nodup →
      ∀ r0 ∈ l, l.filter (fun x => titleKey x = titleKey r0) = [r0] := by
  intro l
  induction l with
  | nil =>
    intro _ r0 h
    simp at h
  | cons r rs ih =>
    intro hnd r0 hr0
    simp only [List.map_cons] at hnd
    have h1 : titleKey r ∉ rs.map titleKey := (List.nodup_cons.mp hnd).1
    have h2 : (rs.map titleKey).Nodup := (List.nodup_cons.mp hnd).2
    rcases List.mem_cons.mp hr0 with rfl | hr0mem
    · have hfil : rs.filter (fun x => titleKey x = titleKey r0) = [] := by
        apply List.filter_eq_nil_iff.mpr
        intro x hx
        simp only [decide_eq_true_eq]
        intro hEq
        exact h1 (hEq ▸ List.mem_map_of_mem titleKey hx)
      simp [List.filter_cons, hfil]
    · have hne : ¬ (titleKey r = titleKey r0) := by
        intro hEq
        exact h1 (hEq ▸ List.mem_map_of_mem titleKey hr0mem)
      simp only [List.filter_cons, decide_eq_true_eq, hne, if_false]
      exact ih h2 r0 hr0mem

theorem filterMap_section :
    ∀ (sub : List BookCandidate) (f : String → Option BookCandidate),
      (∀ r ∈ sub, f (titleKey r) = some r) → (sub.map titleKey).filterMap f = sub := by
  intro sub f
  induction sub with
  | nil => intro _; simp
  | cons r rs ih =>
    intro h
    simp only [List.map_cons, List.filterMap_cons, h r (by simp)]
    rw [ih (fun x hx => h x (by simp [hx]))]

theorem filterMap_keys :
    ∀ (ks : List String) (f : String → Option BookCandidate),
      (∀ k ∈ ks, ∃ b, f k = some b ∧ titleKey b = k) →
      (ks.filterMap f).map titleKey = ks := by
  intro ks f
  induction ks with
  | nil => intro _; simp
  | cons k kt ih =>
    intro h
    obtain ⟨b, hb, hbk⟩ := h k (by simp)
    simp only [List.filterMap_cons, hb, List.map_cons, hbk]
    rw [ih (fun x hx => h x (by simp [hx]))]

theorem best_per_title_fixed (score : BookCandidate → Rat)
    (l : List BookCandidate) (hnd : (l.map titleKey).Nodup) :
    best_per_title score l = l := by
  unfold best_per_title
  rw [titleKeys_of_nodup l hnd]
  apply filterMap_section
  intro r hr
  rw [filter_key_singleton l hnd r hr]
  rfl

theorem map_titleKey_best_per_title (score : BookCandidate → Rat)
    (rs : List BookCandidate) :
    (best_per_title score rs).map titleKey = titleKeys rs := by
  unfold best_per_title
  apply filterMap_keys
  intro k hk
  obtain ⟨r, hr, hrk⟩ := titleKeys_mem rs k hk
  have hmem : r ∈ rs.filter (fun x => titleKey x = k) :=
    List.mem_filter.mpr ⟨hr, by simp [hrk]⟩
  obtain ⟨c, rest, hEq⟩ := List.exists_cons_of_ne_nil (List.ne_nil_of_mem hmem)
  refine ⟨rest.foldl (fun best x => if score best < score x then x else best) c, ?_, ?_⟩
  · rw [hEq]
    rfl
  · have hb : rest.foldl (fun best x => if score best < score x then x else best) c ∈
        rs.filter (fun x => titleKey x = k) := by
      rw [hEq]
      exact foldl_best_mem score rest c
    have hk2 := (List.mem_filter.mp hb).2
    simpa using hk2

/-- C8: best-per-title selection is idempotent for every score function:
grouping records by normalized title and keeping the single highest-scoring
record per group, then applying the same grouping and selection to that
output, returns the output unchanged. -/
theorem c8_best_per_title_idempotent :
    ∀ (score : BookCandidate → Rat) (rs : List BookCandidate),
      best_per_title score (best_per_title score rs) = best_per_title score rs := by
  intro score rs
  apply best_per_title_fixed
  rw [map_titleKey_best_per_title]
  exact titleKeys_nodup rs

/-! ## Helper lemmas for the session registry (C9) -/

theorem registry_lookup_none_iff :
    ∀ (reg : SessionRegistry) (k : String),
      registry_lookup reg k = none ↔ k ∉ reg.map Prod.fst := by
  intro reg k
  induction reg with
  | nil => simp [registry_lookup]
  | cons p rest ih =>
    cases p with
    | mk k0 v =>
      by_cases h : k0 = k
      · subst h
        simp [registry_lookup]
      · simp only [registry_lookup, h, if_false, List.map_cons, List.mem_cons, ih]
        constructor
        · intro hn hm
          rcases hm with hm | hm
          · exact h hm.symm
          · exact hn hm
        · intro hn hm
          exact hn (Or.inr hm)

theorem registry_lookup_append_other :
    ∀ (reg : SessionRegistry) (k : String) (v : Nat) (k2 : String), k2 ≠ k →
      registry_lookup (reg ++ [(k, v)]) k2 = registry_lookup reg k2 := by
  intro reg k v k2 hne
  induction reg with
  | nil =>
    simp only [List.nil_append, registry_lookup]
    rw [if_neg (fun h => hne h.symm)]
  | cons p rest ih =>
    cases p with
    | mk k0 v0 =>
      simp only [List.cons_append, registry_lookup, List.append_eq]
      by_cases h : k0 = k2
      · rw [if_pos h, if_pos h]
      · rw [if_neg h, if_neg h]
        simpa [List.append_eq] using ih

theorem registry_lookup_append_self :
    ∀ (reg : SessionRegistry) (k : String) (v : Nat),
      registry_lookup reg k = none →
      registry_lookup (reg ++ [(k, v)]) k = some v := by
  intro reg k v
  induction reg with
  | nil =>
    intro _
    simp [registry_lookup]
  | cons p rest ih =>
    cases p with
    | mk k0 v0 =>
      intro hnone
      simp only [registry_lookup] at hnone
      simp only [List.cons_append, registry_lookup]
      by_cases h : k0 = k
      · rw [if_pos h] at hnone
        exact absurd hnone (by simp)
      · rw [if_neg h] at hnone
        rw [if_neg h]
        exact ih hnone

theorem registry_lookup_eraseP_self :
    ∀ (reg : SessionRegistry) (k : String), RegistryKeysNodup reg →
      registry_lookup (reg.eraseP (fun p => p.1 = k)) k = none := by
  intro reg k
  induction reg with
  | nil =>
    intro _
    rfl
  | cons p rest ih =>
    cases p with
    | mk k0 v =>
      intro hnd
      have hnd0 : (List.map Prod.fst ((k0, v) :: rest)).Nodup := hnd
      rw [List.map_cons] at hnd0
      have hnd1 : k0 ∉ rest.map Prod.fst := (List.nodup_cons.mp hnd0).1
      have hnd2 : RegistryKeysNodup rest := (List.nodup_cons.mp hnd0).2
      by_cases h : k0 = k
      · subst h
        rw [List.eraseP_cons_of_pos (by simp)]
        exact (registry_lookup_none_iff rest k0).mpr hnd1
      · rw [List.eraseP_cons_of_neg (by simp [h])]
        simp only [registry_lookup, h, if_false]
        exact ih hnd2

theorem registry_lookup_eraseP_other :
    ∀ (reg : SessionRegistry) (k : String) (k2 : String), k2 ≠ k →
      registry_lookup (reg.eraseP (fun p => p.1 = k)) k2 = registry_lookup reg k2 := by
  intro reg k k2 hne
  induction reg with
  | nil => rfl
  | cons p rest ih =>
    cases p with
    | mk k0 v =>
      by_cases h : k0 = k
      · subst h
        rw [List.eraseP_cons_of_pos (by simp)]
        simp only [registry_lookup]
        rw [if_neg (fun hEq => hne hEq.symm)]
      · rw [List.eraseP_cons_of_neg (by simp [h])]
        simp only [registry_lookup]
        by_cases h2 : k0 = k2
        · rw [if_pos h2, if_pos h2]
        · rw [if_neg h2, if_neg h2, ih]

theorem create_preserves_nodup :
    ∀ (reg : SessionRegistry) (k : String) (v : Nat), RegistryKeysNodup reg →
      RegistryKeysNodup (create_irc_session reg k v) := by
  intro reg k v hnd
  unfold create_irc_session
  split
  · have hkeys : (reg.map (fun p => if p.1 = k then (k, v) else p)).map Prod.fst =
        reg.map Prod.fst := by
      rw [List.map_map]
      apply List.map_congr_left
      intro p _
      by_cases h : p.1 = k
      · simp [h]
      · simp [h]
    unfold RegistryKeysNodup
    rw [hkeys]
    exact hnd
  · rename_i hnotsome
    have hnone : registry_lookup reg k = none := by
      cases hlk : registry_lookup reg k with
      | none => rfl
      | some w => exact absurd (by rw [hlk]; rfl) hnotsome
    have hnotin : k ∉ reg.map Prod.fst := (registry_lookup_none_iff reg k).mp hnone
    unfold RegistryKeysNodup
    rw [List.map_append]
    simp only [List.map_cons, List.map_nil]
    rw [List.nodup_append]
    refine ⟨hnd, List.nodup_singleton k, ?_⟩
    intro x hx hx2
    simp only [List.mem_singleton] at hx2
    subst hx2
    exact hnotin hx

theorem close_preserves_nodup :
    ∀ (reg : SessionRegistry) (k : String), RegistryKeysNodup reg →
      RegistryKeysNodup (close_session reg k).2 := by
  intro reg k hnd
  unfold close_session
  cases hlk : registry_lookup reg k with
  | none => exact hnd
  | some v =>
    unfold RegistryKeysNodup
    exact hnd.sublist ((List.eraseP_sublist reg).map Prod.fst)

/-- C9 counterexample: creating a new session does replace an existing
registry entry when the timestamp-derived id collides (two sessions created
within the same clock second share session_id): inserting a second session
under an already-present id overwrites the first binding without any close
call. -/
theorem c9_counterexample_create_replaces :
    create_irc_session [("irc_session_1700000000", 1)] "irc_session_1700000000" 2 =
      [("irc_session_1700000000", 2)] ∧
    registry_lookup (create_irc_session [("irc_session_1700000000", 1)]
        "irc_session_1700000000" 2) "irc_session_1700000000" = some 2 := by
  constructor <;> rfl

/-- C9 amended: each id maps to at most one session (distinct-keys invariant
preserved by create and close); close_session removes the entry and returns
true exactly when the id is present and leaves the registry unchanged
returning false otherwise; and creating a session whose id is not already
registered never removes or replaces an existing entry — only a create under
an already-present (colliding) id replaces that binding. -/
theorem c9_registry_amended :
    (∀ (reg : SessionRegistry) (k : String) (v : Nat), RegistryKeysNodup reg →
      RegistryKeysNodup (create_irc_session reg k v) ∧
      RegistryKeysNodup (close_session reg k).2) ∧
    (∀ (reg : SessionRegistry) (k : String) (v : Nat),
      registry_lookup reg k = none →
      registry_lookup (create_irc_session reg k v) k = some v ∧
      ∀ k2, k2 ≠ k →
        registry_lookup (create_irc_session reg k v) k2 = registry_lookup reg k2) ∧
    (∀ (reg : SessionRegistry) (k : String), RegistryKeysNodup reg →
      ((close_session reg k).1 = true ↔ (registry_lookup reg k).isSome = true) ∧
      registry_lookup (close_session reg k).2 k = none ∧
      (∀ k2, k2 ≠ k →
        registry_lookup (close_session reg k).2 k2 = registry_lookup reg k2) ∧
      ((registry_lookup reg k).isSome = false → (close_session reg k).2 = reg)) := by
  refine ⟨?_, ?_, ?_⟩
  · intro reg k v hnd
    exact ⟨create_preserves_nodup reg k v hnd, close_preserves_nodup reg k hnd⟩
  · intro reg k v hnone
    have hins : create_irc_session reg k v = reg ++ [(k, v)] := by
      unfold create_irc_session
      rw [if_neg (by rw [hnone]; simp)]
    constructor
    · rw [hins]
      exact registry_lookup_append_self reg k v hnone
    · intro k2 hk2
      rw [hins]
      exact registry_lookup_append_other reg k v k2 hk2
  · intro reg k hnd
    refine ⟨?_, ?_, ?_, ?_⟩
    · unfold close_session
      cases hlk : registry_lookup reg k <;> simp
    · unfold close_session
      cases hlk : registry_lookup reg k with
      | none => simpa [registry_lookup_none_iff] using hlk
      | some v => exact registry_lookup_eraseP_self reg k hnd
    · intro k2 hk2
      unfold close_session
      cases hlk : registry_lookup reg k with
      | none => rfl
      | some v => exact registry_lookup_eraseP_other reg k k2 hk2
    · intro hfalse
      unfold close_session
      cases hlk : registry_lookup reg k with
      | none => rfl
      | some v => rw [hlk] at hfalse; exact absurd hfalse (by simp)

/-- C9 amended witness: the invariant, fresh-create and close clauses
instantiated on a one-entry registry. -/
theorem c9_registry_amended_witness :
    (RegistryKeysNodup (create_irc_session [("a", 1)] "b" 2) ∧
      RegistryKeysNodup (close_session [("a", 1)] "b").2) ∧
    (registry_lookup (create_irc_session [("a", 1)] "b" 2) "b" = some 2 ∧
      registry_lookup (create_irc_session [("a", 1)] "b" 2) "a" =
        registry_lookup [("a", 1)] "a") ∧
    (((close_session [("a", 1)] "a").1 = true ↔
        (registry_lookup [("a", 1)] "a").isSome = true) ∧
      registry_lookup (close_session [("a", 1)] "a").2 "a" = none ∧
      registry_lookup (close_session [("a", 1)] "a").2 "b" =
        registry_lookup [("a", 1)] "b") := by
  refine ⟨c9_registry_amended.1 [("a", 1)] "b" 2 (by unfold RegistryKeysNodup; decide), ⟨?_, ?_⟩, ⟨?_, ?_, ?_⟩⟩
  · exact (c9_registry_amended.2.1 [("a", 1)] "b" 2 (by decide)).1
  · exact (c9_registry_amended.2.1 [("a", 1)] "b" 2 (by decide)).2 "a" (by decide)
  · exact (c9_registry_amended.2.2 [("a", 1)] "a" (by unfold RegistryKeysNodup; decide)).1
  · exact (c9_registry_amended.2.2 [("a", 1)] "a" (by unfold RegistryKeysNodup; decide)).2.1
  · exact (c9_registry_amended.2.2 [("a", 1)] "a"
      (by unfold RegistryKeysNodup; decide)).2.2.1 "b" (by decide)

/-! ## Helper lemmas for the enhanced parser guards (C6) -/

theorem enhanced_record_guard (line sf : String) (n : Nat)
    (g1 g2 g3 g4 g5 : String) (b : BookInfo)
    (h : enhanced_record line sf n g1 g2 g3 g4 g5 = some b) :
    2 ≤ b.author.length ∧ 2 ≤ b.title.length ∧
      is_valid_ebook_extension b.extension = true := by
  unfold enhanced_record at h
  split at h
  · simp at h
  · split at h
    · simp at h
    · rename_i hvalid hlen
      rw [Option.some.injEq] at h
      subst h
      push_neg at hlen
      rw [not_not] at hvalid
      exact ⟨hlen.1, hlen.2, hvalid⟩

theorem try_enhanced_pattern_guard (pat : RE) (line sf : String) (n : Nat)
    (b : BookInfo) (h : try_enhanced_pattern pat line sf n = some b) :
    2 ≤ b.author.length ∧ 2 ≤ b.title.length ∧
      is_valid_ebook_extension b.extension = true := by
  unfold try_enhanced_pattern at h
  split at h
  · simp at h
  · split at h
    · exact enhanced_record_guard _ _ _ _ _ _ _ _ _ h
    · simp at h

theorem parse_enhanced_guard_aux :
    ∀ (pats : List RE) (line sf : String) (n : Nat) (b : BookInfo),
      pats.findSome? (fun pat => try_enhanced_pattern pat line sf n) = some b →
      2 ≤ b.author.length ∧ 2 ≤ b.title.length ∧
        is_valid_ebook_extension b.extension = true := by
  intro pats
  induction pats with
  | nil =>
    intro line sf n b h
    simp at h
  | cons p ps ih =>
    intro line sf n b h
    rw [List.findSome?_cons] at h
    cases hp : try_enhanced_pattern p line sf n with
    | none =>
      rw [hp] at h
      exact ih line sf n b h
    | some b2 =>
      rw [hp] at h
      simp only [Option.some.injEq] at h
      subst h
      exact try_enhanced_pattern_guard p line sf n b2 hp

/-- C6 amended: the minimum-length and allow-list validation holds for the
archive-listing parser IRCSession._parse_single_book_line_enhanced — every
record it produces has an author of at least 2 characters, a title of at
least 2 characters and an extension from the fixed ebook allow-list, and a
line violating one of these is rejected (the pattern loop continues) — but
not for the live-line SearchResultParser, whose records may carry shorter
fields or non-allow-listed formats. -/
theorem c6_enhanced_parser_validates :
    ∀ (line source_file : String) (line_num : Nat) (b : BookInfo),
      parse_single_book_line_enhanced line source_file line_num = some b →
      2 ≤ b.author.length ∧ 2 ≤ b.title.length ∧
        is_valid_ebook_extension b.extension = true := by
  intro line sf n b h
  unfold parse_single_book_line_enhanced at h
  exact parse_enhanced_guard_aux _ line sf n b h

/-- C6 amended witness: the guard conclusions on the record produced for a
concrete well-formed archive line. -/
theorem c6_enhanced_parser_validates_witness :
    2 ≤ (BookInfo.mk "Srv" "Jo" "Hi" "epub" "1KB" "!Srv Jo - Hi.epub ::INFO:: 1KB"
        "f" 1 "!Srv Jo - Hi.epub").author.length ∧
    2 ≤ (BookInfo.mk "Srv" "Jo" "Hi" "epub" "1KB" "!Srv Jo - Hi.epub ::INFO:: 1KB"
        "f" 1 "!Srv Jo - Hi.epub").title.length ∧
    is_valid_ebook_extension (BookInfo.mk "Srv" "Jo" "Hi" "epub" "1KB"
        "!Srv Jo - Hi.epub ::INFO:: 1KB" "f" 1 "!Srv Jo - Hi.epub").extension = true :=
  c6_enhanced_parser_validates "!Srv Jo - Hi.epub ::INFO:: 1KB" "f" 1
    (BookInfo.mk "Srv" "Jo" "Hi" "epub" "1KB" "!Srv Jo - Hi.epub ::INFO:: 1KB"
      "f" 1 "!Srv Jo - Hi.epub")
    (by decide)

end GhostBooks
